import Mathlib

/-!
Verification of the LibreConnect daemon core against its design document.

This file gives a shallow embedding, in Lean 4, of the parts of the
LibreConnect source that carry the pairing state machine, the capability
dispatch loop, the connection read step and the chunked file-transfer
handler, together with theorems settling the documented properties.

Embedding conventions:
* `HashMap<String, V>` values are modelled as association lists
  (`List (String × V)`) with `mapLookup` / `mapInsert` / `mapRemove`;
  `mapInsert` removes any previous binding for the key, matching
  `HashMap::insert` semantics for both lookup and `values()`.
* Mutex acquisition is modelled as always succeeding: a `std::sync::Mutex`
  lock can only fail after a panic poisoned it, and no code path here panics
  while holding a lock.
* Fallible OS calls that the handlers branch on (`File::create`, `seek`,
  `write_all`) or whose failure leaves observable state behind
  (`fs::remove_file`) are modelled through an explicit environment of
  failure oracles (`FTEnv`), so that both the success paths and the
  failure paths of the source are represented; a failed `remove_file` is
  only logged and leaves the file on disk.  `flush` failures are only
  logged by the source and change neither state nor reply, so they are
  not modelled.  A zero-length `write_all` performs no system write and
  never extends a file, which `writeAt` reflects.
* `u64` sizes and offsets are modelled as `Nat`: no arithmetic in the
  modelled paths can overflow 64 bits for the inputs the protocol admits.
* The random 6-digit pairing-key generator (`rand::thread_rng`,
  `gen_range(100000..=999999)`) is modelled by passing the freshly drawn
  key as an explicit argument; `validPairingKey` characterises the strings
  the generator can produce.
-/

namespace LibreConnect

/-- Model of `shared::DeviceId`: an opaque string identifier compared by value. -/
abbrev DeviceId := String

/-- Model of `shared::DeviceType`. -/
inductive DeviceType where
  | Mobile
  | Desktop
deriving DecidableEq, Repr

/-- Model of `shared::PluginType`: the closed set of capability tags. -/
inductive PluginType where
  | ClipboardSync
  | FileTransfer
  | InputShare
  | NotificationSync
  | BatteryStatus
  | MediaControl
  | RemoteCommands
  | TouchpadMode
  | SlideControl
deriving DecidableEq, Repr

/-- Model of `shared::DeviceInfo`. -/
structure DeviceInfo where
  id : DeviceId
  name : String
  device_type : DeviceType
  capabilities : List PluginType
deriving DecidableEq, Repr

/-- Model of `shared::KeyAction`. -/
inductive KeyAction where
  | Press
  | Release
deriving DecidableEq, Repr

/-- Model of `shared::KeyCode` (letters, digits, function and control keys). -/
inductive KeyCode where
  | A | B | C | D | E | F | G | H | I | J | K | L | M
  | N | O | P | Q | R | S | T | U | V | W | X | Y | Z
  | Key0 | Key1 | Key2 | Key3 | Key4 | Key5 | Key6 | Key7 | Key8 | Key9
  | F1 | F2 | F3 | F4 | F5 | F6 | F7 | F8 | F9 | F10 | F11 | F12
  | Escape | Tab | CapsLock | LeftShift | LeftControl | LeftAlt | Space
  | RightAlt | RightControl | RightShift | Enter | Backspace | Delete
  | ArrowLeft | ArrowRight | ArrowUp | ArrowDown
  | Unknown (code : Nat)

/-- Model of `shared::KeyEvent`. -/
structure KeyEvent where
  action : KeyAction
  code : KeyCode

/-- Model of `shared::MouseAction`. -/
inductive MouseAction where
  | Move
  | Press
  | Release
  | Scroll
deriving DecidableEq, Repr

/-- Model of `shared::MouseButton`. -/
inductive MouseButton where
  | Left
  | Right
  | Middle
  | Other (code : Nat)
deriving DecidableEq, Repr

/-- Model of `shared::MouseEvent` (`scroll_delta` is an `f32` in the source). -/
structure MouseEvent where
  action : MouseAction
  x : Int
  y : Int
  button : Option MouseButton
  scroll_delta : Option Float

/-- Model of `shared::TouchpadEvent` (all coordinate fields are `f32`). -/
structure TouchpadEvent where
  x : Float
  y : Float
  dx : Float
  dy : Float
  scroll_delta_x : Float
  scroll_delta_y : Float
  is_left_click : Bool
  is_right_click : Bool

/-- Model of `shared::BatteryStatus` payload (`charge` is an `f32`). -/
structure BatteryStatusData where
  charge : Float
  is_charging : Bool

/-- Model of `shared::MediaControlAction`. -/
inductive MediaControlAction where
  | Play
  | Pause
  | PlayPause
  | Next
  | Previous
  | VolumeUp
  | VolumeDown
  | ToggleMute
deriving DecidableEq, Repr

/-- Model of `shared::SlideControlAction`. -/
inductive SlideControlAction where
  | NextSlide
  | PreviousSlide
  | StartPresentation
  | EndPresentation
deriving DecidableEq, Repr

/-- Model of `shared::Message`: the closed wire-message union, with the variants as
the daemon (`daemon.rs`) consumes and produces them, including the keyed
pairing request and the struct forms of the pairing replies. -/
inductive Message where
  | Ping
  | Pong
  | DeviceInfoMsg (info : DeviceInfo)
  | RequestPairing (info : DeviceInfo)
  | RequestPairingWithKey (id : String) (name : String) (device_type : String)
      (capabilities : List String) (pairing_key : String)
  | PairingAccepted (device_id : String)
  | PairingRejected (device_id : String) (reason : String)
  | ClipboardSync (text : String)
  | RequestClipboard
  | FileTransferRequest (file_name : String) (file_size : Nat)
  | FileTransferChunk (file_name : String) (chunk : List UInt8) (offset : Nat)
  | FileTransferEnd (file_name : String)
  | FileTransferError (file_name : String) (error : String)
  | KeyEvent (ev : KeyEvent)
  | MouseEvent (ev : MouseEvent)
  | TouchpadEvent (ev : TouchpadEvent)
  | Notification (title : String) (body : String) (app_name : Option String)
  | MediaControl (action : MediaControlAction)
  | BatteryStatus (status : BatteryStatusData)
  | RemoteCommand (command : String) (args : List String)
  | SlideControl (action : SlideControlAction)

/-! ## Association-list model of `HashMap<String, V>` -/

/-- Lookup in an association list (model of `HashMap::get`). -/
def mapLookup {α : Type} : List (String × α) → String → Option α
  | [], _ => none
  | (k', v) :: rest, k => if k' = k then some v else mapLookup rest k

/-- Insert-or-replace (model of `HashMap::insert`): any previous binding of
the key is removed, so `values()` of the result holds one entry per key. -/
def mapInsert {α : Type} (m : List (String × α)) (k : String) (v : α) :
    List (String × α) :=
  (k, v) :: m.filter (fun p => p.1 != k)

/-- Remove a key (model of `HashMap::remove`). -/
def mapRemove {α : Type} (m : List (String × α)) (k : String) :
    List (String × α) :=
  m.filter (fun p => p.1 != k)

theorem mapLookup_filter_ne {α : Type} (m : List (String × α)) (k k' : String)
    (h : k' ≠ k) :
    mapLookup (m.filter (fun p => p.1 != k)) k' = mapLookup m k' := by
  induction m with
  | nil => rfl
  | cons p rest ih =>
    by_cases hpk : p.1 = k
    · have : (p.1 != k) = false := by simp [hpk]
      simp only [List.filter_cons, this, Bool.false_eq_true, if_false]
      rw [ih]
      have : ¬ p.1 = k' := fun hh => h (hh ▸ hpk ▸ rfl)
      cases p with
      | mk a b => simp_all [mapLookup]
    · have : (p.1 != k) = true := by simp [hpk]
      simp only [List.filter_cons, this, if_true]
      cases p with
      | mk a b =>
        by_cases hak : a = k'
        · simp [mapLookup, hak]
        · simp [mapLookup, hak, ih]

theorem mapLookup_insert_self {α : Type} (m : List (String × α)) (k : String)
    (v : α) : mapLookup (mapInsert m k v) k = some v := by
  simp [mapInsert, mapLookup]

theorem mapLookup_insert_ne {α : Type} (m : List (String × α)) (k k' : String)
    (v : α) (h : k' ≠ k) :
    mapLookup (mapInsert m k v) k' = mapLookup m k' := by
  simp only [mapInsert, mapLookup]
  rw [if_neg (fun hh => h hh.symm)]
  exact mapLookup_filter_ne m k k' h

theorem mapLookup_remove_self {α : Type} (m : List (String × α)) (k : String) :
    mapLookup (mapRemove m k) k = none := by
  induction m with
  | nil => rfl
  | cons p rest ih =>
    by_cases hpk : p.1 = k
    · have : (p.1 != k) = false := by simp [hpk]
      simp [mapRemove, List.filter_cons, this] at ih ⊢
      exact ih
    · have : (p.1 != k) = true := by simp [hpk]
      cases p with
      | mk a b =>
        simp only [mapRemove, List.filter_cons, this, if_true]
        simp only [mapRemove] at ih
        simp [mapLookup, ih]
        intro hak
        exact absurd hak hpk

theorem mapLookup_remove_ne {α : Type} (m : List (String × α)) (k k' : String)
    (h : k' ≠ k) :
    mapLookup (mapRemove m k) k' = mapLookup m k' :=
  mapLookup_filter_ne m k k' h

/-! ## Daemon state and pairing (`daemon/src/daemon.rs`) -/

/-- Model of `shared::MAX_MESSAGE_SIZE`: 64 MiB, re-exported by the daemon. -/
def MAX_MESSAGE_SIZE : Nat := 64 * 1024 * 1024

/-- The read buffer allocated by `Daemon::handle_client_connection`
(`vec![0u8; 8192]`); a single `stream.read` can return at most this many
bytes. -/
def READ_BUFFER_LEN : Nat := 8192

/-- The strings `Daemon::generate_pairing_key` can produce:
`format!("{:06}", rng.gen_range(100000..=999999))` (six digits, no
padding needed in this range). -/
def validPairingKey (s : String) : Prop :=
  ∃ n : Nat, 100000 ≤ n ∧ n ≤ 999999 ∧ s = toString n

/-- Modelled from the spec: the `FromStr` impl for `DeviceType` is absent
from the source snapshot; the daemon parses device-type strings leniently
and defaults unparseable ones to `Mobile` at the call site
(`device_type.parse().unwrap_or(DeviceType::Mobile)`). -/
def parseDeviceType (s : String) : Option DeviceType :=
  if s = "Mobile" ∨ s = "mobile" then some .Mobile
  else if s = "Desktop" ∨ s = "desktop" then some .Desktop
  else none

/-- Modelled from the spec: the `FromStr` impl for `PluginType` is absent
from the source snapshot; unparseable capability strings are dropped at the
call site (`capabilities.iter().filter_map(|cap| cap.parse().ok())`). -/
def parsePluginType (s : String) : Option PluginType :=
  if s = "ClipboardSync" then some .ClipboardSync
  else if s = "FileTransfer" then some .FileTransfer
  else if s = "InputShare" then some .InputShare
  else if s = "NotificationSync" then some .NotificationSync
  else if s = "BatteryStatus" then some .BatteryStatus
  else if s = "MediaControl" then some .MediaControl
  else if s = "RemoteCommands" then some .RemoteCommands
  else if s = "TouchpadMode" then some .TouchpadMode
  else if s = "SlideControl" then some .SlideControl
  else none

/-- The process-wide mutable daemon state: the paired-device registry,
the live pairing key, and the contents last written to
`paired_devices.json` (`none` if the file has not been written). -/
structure DaemonState where
  paired_devices : List (String × DeviceInfo)
  pairing_key : String
  persisted : Option (List DeviceInfo)
deriving DecidableEq, Repr

/-- A capability handler as the dispatcher in `Daemon::handle_message`
consumes it: `handle(&message, &sender_id)` yielding
`Result<Option<Message>, _>`. -/
def Handler : Type := Message → String → Except String (Option Message)

/-- The view the dispatcher takes of one handler call: `Ok(Some(r))` claims the
message with response `r`; `Ok(None)` and `Err(_)` both let dispatch
continue. -/
def toResponse : Except String (Option Message) → Option Message
  | .ok (some r) => some r
  | .ok none => none
  | .error _ => none

/-- The plugin dispatch loop of `Daemon::handle_message`: iterate the
handlers in registration order; the first `Ok(Some(response))`
short-circuits; if no handler yields a response the message produces no
reply. -/
def dispatchPlugins (plugins : List Handler) (msg : Message) (sender : String) :
    Option Message :=
  match plugins with
  | [] => none
  | p :: rest =>
    match p msg sender with
    | .ok (some r) => some r
    | _ => dispatchPlugins rest msg sender

/-- Model of `Daemon::handle_message`.  `fresh` is the key that
`generate_pairing_key` draws if this message triggers a key rotation;
`sender` is the peer address string used as the plugin-facing device id.
Returns the daemon state after the message and the optional reply. -/
def handle_message (plugins : List Handler) (sender : String) (fresh : String)
    (st : DaemonState) : Message → DaemonState × Option Message
  | .RequestPairing info =>
    let devices := mapInsert st.paired_devices info.id info
    ({ paired_devices := devices,
       pairing_key := st.pairing_key,
       persisted := some (devices.map Prod.snd) },
     some (.PairingAccepted info.id))
  | .RequestPairingWithKey id name device_type capabilities provided_key =>
    if st.pairing_key = provided_key then
      let device_info : DeviceInfo :=
        { id := id,
          name := name,
          device_type := (parseDeviceType device_type).getD .Mobile,
          capabilities := capabilities.filterMap parsePluginType }
      let devices := mapInsert st.paired_devices id device_info
      ({ paired_devices := devices,
         pairing_key := fresh,
         persisted := some (devices.map Prod.snd) },
       some (.PairingAccepted id))
    else
      (st, some (.PairingRejected id "Invalid pairing key"))
  | msg => (st, dispatchPlugins plugins msg sender)

/-- Outcome of one iteration of the connection read loop after
`stream.read` returned `bytesRead` bytes. -/
inductive ReadOutcome where
  | messageTooLarge (n : Nat)
  | decodeFailed (e : String)
  | decoded (m : Message)

/-- The per-read size check and decode of
`Daemon::handle_client_connection`: reject reads larger than
`MAX_MESSAGE_SIZE` before decoding, otherwise hand the bytes to
`serde_json::from_slice` (abstracted as `decode`). -/
def classifyRead (decode : List UInt8 → Except String Message)
    (bytesRead : List UInt8) : ReadOutcome :=
  if bytesRead.length > MAX_MESSAGE_SIZE then .messageTooLarge bytesRead.length
  else
    match decode bytesRead with
    | .ok m => .decoded m
    | .error e => .decodeFailed e

/-! ## Clipboard plugin (`plugins/src/lib.rs`, `ClipboardSyncPlugin`) -/

/-- Environment of the clipboard plugin: the outcome that the `arboard` call `get_text` would report. -/
structure ClipEnv where
  getText : Except String String

/-- Model of `ClipboardSyncPlugin::handle_message`.  `avail` is whether
`arboard::Clipboard::new()` succeeded at plugin construction (the
`Option<Clipboard>` field being `Some`). -/
def clipHandle (avail : Bool) (env : ClipEnv) : Message → Option Message
  | .ClipboardSync _content => none
  | .RequestClipboard =>
    if avail then
      match env.getText with
      | .ok content => some (.ClipboardSync content)
      | .error _ => some (.ClipboardSync "")
    else
      some (.ClipboardSync "")
  | _ => none

/-! ## File-transfer plugin (`plugins/src/lib.rs`, `FileTransferPlugin`) -/

/-- Byte contents padded with zeros up to length `n` (the implicit
zero-fill a POSIX file gets between its previous end and a write past it). -/
def padTo (c : List UInt8) (n : Nat) : List UInt8 :=
  c ++ List.replicate (n - c.length) 0

/-- Model of `seek(SeekFrom::Start(off))` followed by `write_all(d)` on a file whose
current bytes are `c`.  A zero-length `write_all` performs no write and
never extends the file. -/
def writeAt (c : List UInt8) (off : Nat) (d : List UInt8) : List UInt8 :=
  if d = [] then c
  else (padTo c off).take off ++ d ++ (padTo c off).drop (off + d.length)

/-- State of the file-transfer plugin: the `active_transfers` map
(file name to the cursor position of the open handle) and the files in the
download directory (file name to bytes on disk). -/
structure FTState where
  active_transfers : List (String × Nat)
  disk : List (String × List UInt8)
deriving DecidableEq, Repr

/-- Failure oracles for the OS calls of the file-transfer handler:
`some e` makes the call fail with error text `e`, `none` lets it succeed.
`createFail`, `seekFail` and `writeFail` govern the calls the handler
replies on; `removeFail` governs `fs::remove_file`, whose failure is only
logged and leaves the file on disk. -/
structure FTEnv where
  createFail : String → Option String
  seekFail : String → Nat → Option String
  writeFail : String → Nat → List UInt8 → Option String
  removeFail : String → Option String

/-- Model of `FileTransferPlugin::handle_message`, returning the plugin state after
the message and the optional reply.  Messages not addressed to the plugin
fall through the final catch-all with no effect and no reply. -/
def ftHandle (env : FTEnv) (st : FTState) : Message → FTState × Option Message
  | .FileTransferRequest file_name _file_size =>
    match env.createFail file_name with
    | some e =>
      (st, some (.FileTransferError file_name ("Failed to create file: " ++ e)))
    | none =>
      ({ active_transfers := mapInsert st.active_transfers file_name 0,
         disk := mapInsert st.disk file_name [] }, none)
  | .FileTransferChunk file_name chunk offset =>
    match mapLookup st.active_transfers file_name with
    | none => (st, none)
    | some _cursor =>
      match env.seekFail file_name offset with
      | some e =>
        (st, some (.FileTransferError file_name ("Seek error: " ++ e)))
      | none =>
        match env.writeFail file_name offset chunk with
        | some e =>
          ({ st with
              active_transfers := mapInsert st.active_transfers file_name offset },
           some (.FileTransferError file_name ("Write error: " ++ e)))
        | none =>
          let contents := (mapLookup st.disk file_name).getD []
          ({ active_transfers :=
               mapInsert st.active_transfers file_name (offset + chunk.length),
             disk := mapInsert st.disk file_name (writeAt contents offset chunk) },
           none)
  | .FileTransferEnd file_name =>
    ({ st with active_transfers := mapRemove st.active_transfers file_name },
     none)
  | .FileTransferError file_name _error =>
    match env.removeFail file_name with
    | some _e =>
      ({ st with active_transfers := mapRemove st.active_transfers file_name },
       none)
    | none =>
      ({ active_transfers := mapRemove st.active_transfers file_name,
         disk := mapRemove st.disk file_name }, none)
  | _ => (st, none)

/-- Run the file-transfer plugin over a sequence of messages, keeping only
the state (replies, if any, go back to the sender). -/
def ftRun (env : FTEnv) (st : FTState) (msgs : List Message) : FTState :=
  msgs.foldl (fun s m => (ftHandle env s m).1) st

/-- An environment in which the modelled create, seek and write calls all
succeed. -/
def FTEnv.noFail (env : FTEnv) : Prop :=
  (∀ f, env.createFail f = none) ∧
  (∀ f o, env.seekFail f o = none) ∧
  (∀ f o d, env.writeFail f o d = none)

/-! ## Chunk sequences and out-of-order reassembly -/

/-- One file-transfer chunk: its target offset and its bytes. -/
structure Chunk where
  offset : Nat
  data : List UInt8
deriving DecidableEq, Repr

/-- Order on chunks by target offset. -/
def chunkLE (a b : Chunk) : Prop := a.offset ≤ b.offset

instance : DecidableRel chunkLE := fun a b => Nat.decLe a.offset b.offset

instance : IsTotal Chunk chunkLE := ⟨fun a b => Nat.le_total a.offset b.offset⟩

instance : IsTrans Chunk chunkLE := ⟨fun _ _ _ => Nat.le_trans⟩

/-- The chunks sorted by target offset. -/
def sortByOffset (cs : List Chunk) : List Chunk := List.insertionSort chunkLE cs

/-- Two chunks have non-overlapping offset ranges. -/
def chunkDisjoint (a b : Chunk) : Prop :=
  a.offset + a.data.length ≤ b.offset ∨ b.offset + b.data.length ≤ a.offset

instance : DecidableRel chunkDisjoint := fun a b =>
  inferInstanceAs (Decidable
    (a.offset + a.data.length ≤ b.offset ∨ b.offset + b.data.length ≤ a.offset))

/-- Byte index `i` lies in the offset range of chunk `c`. -/
def chunkCovers (c : Chunk) (i : Nat) : Prop :=
  c.offset ≤ i ∧ i < c.offset + c.data.length

instance (c : Chunk) (i : Nat) : Decidable (chunkCovers c i) :=
  inferInstanceAs (Decidable (_ ∧ _))

/-- The chunk offset ranges exactly cover `[0, size)`: every index below
`size` lies in some chunk, and no chunk reaches past `size`. -/
def chunksCover (cs : List Chunk) (size : Nat) : Prop :=
  (∀ i < size, ∃ c ∈ cs, chunkCovers c i) ∧
  (∀ c ∈ cs, c.data ≠ [] → c.offset + c.data.length ≤ size)

instance (cs : List Chunk) (size : Nat) : Decidable (chunksCover cs size) :=
  inferInstanceAs (Decidable
    ((∀ i < size, ∃ c ∈ cs, chunkCovers c i) ∧
     (∀ c ∈ cs, c.data ≠ [] → c.offset + c.data.length ≤ size)))

/-- Apply the chunks in list order, each as a seek-then-write on the
accumulated file contents. -/
def processChunks (cs : List Chunk) (init : List UInt8) : List UInt8 :=
  cs.foldl (fun acc c => writeAt acc c.offset c.data) init

/-- The concatenation of the chunk byte payloads in list order. -/
def chunksBytes (cs : List Chunk) : List UInt8 :=
  cs.foldr (fun c acc => c.data ++ acc) []

theorem writeAt_nil (c : List UInt8) (off : Nat) : writeAt c off [] = c := by
  simp [writeAt]

theorem padTo_length (bs : List UInt8) (n : Nat) :
    (padTo bs n).length = max bs.length n := by
  simp only [padTo, List.length_append, List.length_replicate]
  omega

theorem padTo_getElem? (bs : List UInt8) (n i : Nat) :
    (padTo bs n)[i]? =
      if i < bs.length then bs[i]?
      else if i < n then some 0 else none := by
  by_cases hc : i < bs.length
  · rw [padTo, List.getElem?_append_left hc, if_pos hc]
  · rw [padTo, List.getElem?_append_right (Nat.le_of_not_lt hc), if_neg hc,
      List.getElem?_replicate]
    by_cases hn : i < n
    · rw [if_pos (by omega), if_pos hn]
    · rw [if_neg (by omega), if_neg hn]

theorem writeAt_length (bs : List UInt8) (off : Nat) {d : List UInt8}
    (hd : d ≠ []) :
    (writeAt bs off d).length = max bs.length (off + d.length) := by
  have hpad : (padTo bs off).length = max bs.length off := padTo_length bs off
  simp only [writeAt, if_neg hd, List.length_append, List.length_take,
    List.length_drop, hpad]
  omega

theorem writeAt_getElem? (bs : List UInt8) (off : Nat) {d : List UInt8}
    (hd : d ≠ []) (i : Nat) :
    (writeAt bs off d)[i]? =
      if off ≤ i ∧ i < off + d.length then d[i - off]?
      else if i < bs.length then bs[i]?
      else if i < off then some 0
      else none := by
  have hpad : (padTo bs off).length = max bs.length off := padTo_length bs off
  have htake : ((padTo bs off).take off).length = off := by
    simp only [List.length_take, hpad]
    omega
  have hlen : ((padTo bs off).take off ++ d).length = off + d.length := by
    simp only [List.length_append, htake]
  by_cases h1 : i < off
  · -- before the written range: the (possibly padded) original bytes
    rw [writeAt, if_neg hd,
      List.getElem?_append_left (by rw [hlen]; omega),
      List.getElem?_append_left (by rw [htake]; omega),
      List.getElem?_take_of_lt h1, padTo_getElem?]
    have hno : ¬ (off ≤ i ∧ i < off + d.length) := by omega
    rw [if_neg hno]
  · by_cases h2 : i < off + d.length
    · -- inside the written range: the chunk's bytes
      rw [writeAt, if_neg hd,
        List.getElem?_append_left (by rw [hlen]; omega),
        List.getElem?_append_right (by rw [htake]; omega), htake,
        if_pos ⟨by omega, h2⟩]
    · -- past the written range: the original bytes (or out of range)
      rw [writeAt, if_neg hd,
        List.getElem?_append_right (by rw [hlen]; omega), hlen,
        List.getElem?_drop, padTo_getElem?]
      have harith : off + d.length + (i - (off + d.length)) = i := by omega
      rw [harith]
      have hno : ¬ (off ≤ i ∧ i < off + d.length) := by omega
      rw [if_neg hno]

theorem chunkDisjoint_symm : ∀ {a b : Chunk}, chunkDisjoint a b → chunkDisjoint b a :=
  fun h => Or.symm h

/-- Seek-then-write operations for chunks with non-overlapping ranges
commute. -/
theorem writeAt_comm (z : List UInt8) {a b : Chunk} (h : chunkDisjoint a b) :
    writeAt (writeAt z a.offset a.data) b.offset b.data =
      writeAt (writeAt z b.offset b.data) a.offset a.data := by
  by_cases ha : a.data = []
  · rw [ha, writeAt_nil, writeAt_nil]
  · by_cases hb : b.data = []
    · rw [hb, writeAt_nil, writeAt_nil]
    · apply List.ext_getElem?
      intro i
      rw [writeAt_getElem? _ _ hb, writeAt_getElem? _ _ ha,
        writeAt_getElem? _ _ ha, writeAt_getElem? _ _ hb,
        writeAt_length _ _ ha, writeAt_length _ _ hb]
      rcases h with h | h <;>
        split_ifs <;> first | rfl | omega

/-- Applying pairwise-disjoint chunks is invariant under reordering. -/
theorem processChunks_perm {cs cs' : List Chunk} (hp : cs.Perm cs')
    (hd : cs.Pairwise chunkDisjoint) (init : List UInt8) :
    processChunks cs init = processChunks cs' init := by
  apply List.Perm.foldl_eq' hp
  intro x hx y hy z
  by_cases hxy : x = y
  · rw [hxy]
  · exact writeAt_comm z
      (List.Pairwise.forall (fun _ _ hs => chunkDisjoint_symm hs) hd hx hy hxy)

theorem writeAt_eq_append (acc d : List UInt8) :
    writeAt acc acc.length d = acc ++ d := by
  by_cases hd : d = []
  · rw [hd, writeAt_nil, List.append_nil]
  · have hpad : padTo acc acc.length = acc := by
      simp [padTo]
    rw [writeAt, if_neg hd, hpad, List.take_length,
      List.drop_eq_nil_of_le (by omega), List.append_nil]

/-- Processing a sorted, pairwise-disjoint chunk list whose ranges lie
within `[acc.length, size)` and cover it appends exactly the chunk
payloads in order. -/
theorem processChunks_contig (size : Nat) :
    ∀ (cs : List Chunk) (acc : List UInt8),
      List.Sorted chunkLE cs →
      cs.Pairwise chunkDisjoint →
      (∀ c ∈ cs, c.data ≠ [] →
        acc.length ≤ c.offset ∧ c.offset + c.data.length ≤ size) →
      (∀ i, acc.length ≤ i → i < size → ∃ c ∈ cs, chunkCovers c i) →
      processChunks cs acc = acc ++ chunksBytes cs := by
  intro cs
  induction cs with
  | nil =>
    intro acc _ _ _ _
    simp [processChunks, chunksBytes]
  | cons ch tl ih =>
    intro acc hsort hdisj hbnd hcov
    have hsort' : List.Sorted chunkLE tl := (List.sorted_cons.mp hsort).2
    have hdisj' : tl.Pairwise chunkDisjoint := hdisj.of_cons
    by_cases hch : ch.data = []
    · have hstep : processChunks (ch :: tl) acc = processChunks tl acc := by
        simp [processChunks, hch, writeAt_nil]
      have hbytes : chunksBytes (ch :: tl) = chunksBytes tl := by
        simp [chunksBytes, hch]
      rw [hstep, hbytes]
      apply ih acc hsort' hdisj'
      · exact fun c hc => hbnd c (List.mem_cons_of_mem ch hc)
      · intro i hi hisz
        obtain ⟨c, hc, hcv⟩ := hcov i hi hisz
        rcases List.mem_cons.mp hc with rfl | hctl
        · exact absurd hcv (by simp [chunkCovers, hch])
        · exact ⟨c, hctl, hcv⟩
    · -- the head chunk is non-empty, so it must sit exactly at `acc.length`
      have hlen : 0 < ch.data.length := List.length_pos.mpr hch
      have hbch := hbnd ch (List.mem_cons_self ch tl) hch
      have hsz : acc.length < size := by omega
      obtain ⟨c, hc, hcv⟩ := hcov acc.length (Nat.le_refl _) hsz
      have hcne : c.data ≠ [] := by
        intro h0
        have h1 := hcv.1
        have h2 := hcv.2
        rw [h0] at h2
        simp at h2
        omega
      have hcoff : c.offset = acc.length :=
        Nat.le_antisymm hcv.1 (hbnd c hc hcne).1
      have hchoff : ch.offset = acc.length := by
        rcases List.mem_cons.mp hc with rfl | hctl
        · exact hcoff
        · have hle : chunkLE ch c := (List.sorted_cons.mp hsort).1 c hctl
          have : ch.offset ≤ acc.length := hcoff ▸ hle
          omega
      have hstep : processChunks (ch :: tl) acc =
          processChunks tl (acc ++ ch.data) := by
        simp only [processChunks, List.foldl_cons]
        rw [hchoff, writeAt_eq_append]
      rw [hstep]
      have htl := ih (acc ++ ch.data) hsort' hdisj'
        (by
          intro c' hc' hc'ne
          refine ⟨?_, (hbnd c' (List.mem_cons_of_mem ch hc') hc'ne).2⟩
          have hdj : chunkDisjoint ch c' := (List.pairwise_cons.mp hdisj).1 c' hc'
          have hb' := (hbnd c' (List.mem_cons_of_mem ch hc') hc'ne).1
          have hl' : 0 < c'.data.length := List.length_pos.mpr hc'ne
          rcases hdj with hdj | hdj
          · simp only [List.length_append]
            omega
          · omega)
        (by
          intro i hi hisz
          have hi' : acc.length ≤ i := by
            simp only [List.length_append] at hi
            omega
          obtain ⟨c'', hc'', hcv''⟩ := hcov i hi' hisz
          rcases List.mem_cons.mp hc'' with rfl | hctl
          · exfalso
            have := hcv''.2
            simp only [List.length_append] at hi
            omega
          · exact ⟨c'', hctl, hcv''⟩)
      rw [htl]
      simp [chunksBytes, List.append_assoc]

/-- Applying pairwise-disjoint chunks that exactly cover `[0, size)` to an
initially empty file, in any order, yields the concatenation of the chunks
sorted by offset. -/
theorem processChunks_eq_sorted (cs : List Chunk) (size : Nat)
    (hdisj : cs.Pairwise chunkDisjoint) (hcov : chunksCover cs size) :
    processChunks cs [] = chunksBytes (sortByOffset cs) := by
  have hperm : (sortByOffset cs).Perm cs := List.perm_insertionSort chunkLE cs
  have hdisj' : (sortByOffset cs).Pairwise chunkDisjoint :=
    (List.Perm.pairwise_iff (fun hs => chunkDisjoint_symm hs) hperm).mpr hdisj
  have hsorted : List.Sorted chunkLE (sortByOffset cs) :=
    List.sorted_insertionSort chunkLE cs
  rw [processChunks_perm hperm.symm hdisj []]
  have := processChunks_contig size (sortByOffset cs) [] hsorted hdisj'
    (fun c hc hne => ⟨Nat.zero_le _, (hcov.2 c (hperm.subset hc) hne)⟩)
    (fun i _ hi => by
      obtain ⟨c, hc, hcv⟩ := hcov.1 i hi
      exact ⟨c, hperm.mem_iff.mpr hc, hcv⟩)
  rw [this, List.nil_append]

/-- Running a list of chunk messages for a file with an open session and
failure-free I/O applies exactly `processChunks` to the bytes of that file and
keeps the session open. -/
theorem ftRun_chunks (env : FTEnv)
    (hseek : ∀ f o, env.seekFail f o = none)
    (hwrite : ∀ f o d, env.writeFail f o d = none) (name : String) :
    ∀ (cs : List Chunk) (st : FTState) (content : List UInt8),
      (mapLookup st.active_transfers name).isSome = true →
      mapLookup st.disk name = some content →
      mapLookup (ftRun env st (cs.map fun c =>
          Message.FileTransferChunk name c.data c.offset)).disk name =
        some (processChunks cs content) ∧
      (mapLookup (ftRun env st (cs.map fun c =>
          Message.FileTransferChunk name c.data c.offset)).active_transfers
        name).isSome = true := by
  intro cs
  induction cs with
  | nil =>
    intro st content hs hdk
    exact ⟨hdk, hs⟩
  | cons c cs ih =>
    intro st content hs hdk
    obtain ⟨cur, hcur⟩ := Option.isSome_iff_exists.mp hs
    have h1 : (ftHandle env st
        (.FileTransferChunk name c.data c.offset)).1 =
        { active_transfers :=
            mapInsert st.active_transfers name (c.offset + c.data.length),
          disk := mapInsert st.disk name (writeAt content c.offset c.data) } := by
      simp [ftHandle, hcur, hseek, hwrite, hdk]
    have hstep : ftRun env st ((c :: cs).map fun ck =>
        Message.FileTransferChunk name ck.data ck.offset) =
        ftRun env ((ftHandle env st
          (.FileTransferChunk name c.data c.offset)).1)
          (cs.map fun ck => Message.FileTransferChunk name ck.data ck.offset) :=
      rfl
    rw [hstep, h1]
    have hrec := ih
      { active_transfers :=
          mapInsert st.active_transfers name (c.offset + c.data.length),
        disk := mapInsert st.disk name (writeAt content c.offset c.data) }
      (writeAt content c.offset c.data)
      (by rw [mapLookup_insert_self]; rfl)
      (mapLookup_insert_self _ _ _)
    simpa only [processChunks, List.foldl_cons] using hrec

/-- A failure-free environment for concrete runs. -/
def ftEnvOk : FTEnv :=
  ⟨fun _ => none, fun _ _ => none, fun _ _ _ => none, fun _ => none⟩

/-- An environment whose `seek` calls always fail. -/
def ftEnvSeekBoom : FTEnv :=
  ⟨fun _ => none, fun _ _ => some "boom", fun _ _ _ => none, fun _ => none⟩

/-- An environment whose `remove_file` calls always fail. -/
def ftEnvRemoveBoom : FTEnv :=
  ⟨fun _ => none, fun _ _ => none, fun _ _ _ => none,
   fun _ => some "Permission denied"⟩

/-- A decoder that rejects every input. -/
def decodeFailAll : List UInt8 → Except String Message :=
  fun _ => .error "malformed"

/-- A handler that never claims a message. -/
def hNone : Handler := fun _ _ => .ok none

/-- A handler that always fails. -/
def hErr : Handler := fun _ _ => .error "fail"

/-- A handler that answers `Ping` with `Pong`. -/
def hPong : Handler := fun m _ =>
  match m with
  | .Ping => .ok (some .Pong)
  | _ => .ok none

/-- The delivered chunk list used in concrete file-transfer runs:
offsets out of order, together covering `[0, 4)`. -/
def csW : List Chunk := [⟨2, [3, 4]⟩, ⟨0, [1, 2]⟩]

/-! ## Claim theorems -/

/-- C1 counterexample: the claim says the code consumed by a successful
keyed pairing is never accepted again, but `generate_pairing_key` draws
uniformly from `100000..=999999` and can draw the consumed code again.
Starting from live code `123456`, a successful keyed pairing whose freshly
drawn replacement is again `123456` leaves the stale code live: the very
same request is accepted a second time instead of rejected. -/
theorem stale_pairing_key_reaccepted :
    validPairingKey "123456" ∧
    (handle_message [] "peer" "123456" ⟨[], "123456", none⟩
        (.RequestPairingWithKey "dev" "Phone" "Mobile" [] "123456")).2 =
      some (.PairingAccepted "dev") ∧
    (handle_message [] "peer" "777777"
        (handle_message [] "peer" "123456" ⟨[], "123456", none⟩
          (.RequestPairingWithKey "dev" "Phone" "Mobile" [] "123456")).1
        (.RequestPairingWithKey "dev" "Phone" "Mobile" [] "123456")).2 =
      some (.PairingAccepted "dev") ∧
    (handle_message [] "peer" "777777"
        (handle_message [] "peer" "123456" ⟨[], "123456", none⟩
          (.RequestPairingWithKey "dev" "Phone" "Mobile" [] "123456")).1
        (.RequestPairingWithKey "dev" "Phone" "Mobile" [] "123456")).2 ≠
      some (.PairingRejected "dev" "Invalid pairing key") := by
  have hacc : (handle_message [] "peer" "777777"
      (handle_message [] "peer" "123456" ⟨[], "123456", none⟩
        (.RequestPairingWithKey "dev" "Phone" "Mobile" [] "123456")).1
      (.RequestPairingWithKey "dev" "Phone" "Mobile" [] "123456")).2 =
      some (.PairingAccepted "dev") := by
    simp [handle_message]
  refine ⟨⟨123456, by omega, by omega, rfl⟩, by simp [handle_message], hacc, ?_⟩
  rw [hacc]
  simp

/-- C1 (amended): a successful keyed pairing replaces the live code with
the freshly generated one and replies `PairingAccepted`; provided the
fresh code differs from the consumed one (which the generator does not
guarantee), any keyed request presenting the consumed code immediately
after is rejected. -/
theorem keyed_pairing_rotates_key (plugins : List Handler)
    (sender fresh : String) (st : DaemonState) (id name dt : String)
    (caps : List String) (k : String)
    (hmatch : st.pairing_key = k) (hfresh : fresh ≠ k) :
    (handle_message plugins sender fresh st
        (.RequestPairingWithKey id name dt caps k)).2 =
      some (.PairingAccepted id) ∧
    (handle_message plugins sender fresh st
        (.RequestPairingWithKey id name dt caps k)).1.pairing_key = fresh ∧
    ∀ (plugins' : List Handler) (sender' fresh' id' name' dt' : String)
      (caps' : List String),
      (handle_message plugins' sender' fresh'
          (handle_message plugins sender fresh st
            (.RequestPairingWithKey id name dt caps k)).1
          (.RequestPairingWithKey id' name' dt' caps' k)).2 =
        some (.PairingRejected id' "Invalid pairing key") := by
  have h1 : (handle_message plugins sender fresh st
      (.RequestPairingWithKey id name dt caps k)).1.pairing_key = fresh := by
    simp [handle_message, hmatch]
  refine ⟨by simp [handle_message, hmatch], h1, ?_⟩
  intro plugins' sender' fresh' id' name' dt' caps'
  set S := (handle_message plugins sender fresh st
    (.RequestPairingWithKey id name dt caps k)).1 with hS
  have hne : ¬ (S.pairing_key = k) := by rw [h1]; exact hfresh
  simp [handle_message, hne]

/-- C1 witness: a concrete successful pairing with live code `123456` and
fresh code `654321`; the repeat request with the consumed code is
rejected. -/
theorem keyed_pairing_rotates_key_witness :
    (⟨[], "123456", none⟩ : DaemonState).pairing_key = "123456" ∧
    ("654321" : String) ≠ "123456" ∧
    (handle_message [] "p" "654321" ⟨[], "123456", none⟩
        (.RequestPairingWithKey "dev" "N" "Mobile" [] "123456")).2 =
      some (.PairingAccepted "dev") ∧
    (handle_message [] "q" "888888"
        (handle_message [] "p" "654321" ⟨[], "123456", none⟩
          (.RequestPairingWithKey "dev" "N" "Mobile" [] "123456")).1
        (.RequestPairingWithKey "dev2" "M" "Desktop" [] "123456")).2 =
      some (.PairingRejected "dev2" "Invalid pairing key") := by
  have h := keyed_pairing_rotates_key [] "p" "654321" ⟨[], "123456", none⟩
    "dev" "N" "Mobile" [] "123456" rfl (by decide)
  exact ⟨rfl, by decide, h.1, h.2.2 [] "q" "888888" "dev2" "M" "Desktop" []⟩

/-- C2: a keyed pairing request whose provided key differs from the live
code leaves the whole daemon state unchanged (registry, live code and
persisted file) and replies exactly
`PairingRejected{device_id, "Invalid pairing key"}`. -/
theorem keyed_pairing_mismatch_rejected (plugins : List Handler)
    (sender fresh : String) (st : DaemonState) (id name dt : String)
    (caps : List String) (provided : String)
    (h : provided ≠ st.pairing_key) :
    handle_message plugins sender fresh st
        (.RequestPairingWithKey id name dt caps provided) =
      (st, some (.PairingRejected id "Invalid pairing key")) := by
  have hne : ¬ (st.pairing_key = provided) := fun hh => h hh.symm
  simp [handle_message, hne]

/-- C2 witness: a concrete mismatching keyed request against live code
`111111`. -/
theorem keyed_pairing_mismatch_rejected_witness :
    ("222222" : String) ≠ (⟨[], "111111", none⟩ : DaemonState).pairing_key ∧
    handle_message [] "peer" "999999" ⟨[], "111111", none⟩
        (.RequestPairingWithKey "dev" "Phone" "Mobile" [] "222222") =
      (⟨[], "111111", none⟩,
       some (.PairingRejected "dev" "Invalid pairing key")) :=
  ⟨by decide,
   keyed_pairing_mismatch_rejected [] "peer" "999999" ⟨[], "111111", none⟩
     "dev" "Phone" "Mobile" [] "222222" (by decide)⟩

/-- C3: the claimed oversize handling is unreachable in the source: the
connection handler reads into an 8192-byte buffer, so a single read never
returns more than `READ_BUFFER_LEN` bytes and the
`bytes_read > MAX_MESSAGE_SIZE` guard can never fire — no read outcome is
ever `messageTooLarge`; instead the (possibly truncated) bytes are always
handed to the decoder. -/
theorem message_too_large_unreachable
    (decode : List UInt8 → Except String Message) (bytesRead : List UInt8)
    (h : bytesRead.length ≤ READ_BUFFER_LEN) (n : Nat) :
    classifyRead decode bytesRead ≠ .messageTooLarge n := by
  have hlt : ¬ bytesRead.length > MAX_MESSAGE_SIZE := by
    simp only [READ_BUFFER_LEN] at h
    simp only [MAX_MESSAGE_SIZE]
    omega
  unfold classifyRead
  rw [if_neg hlt]
  cases hd : decode bytesRead <;> simp

/-- C3 witness: a concrete short read is classified by the decoder, never
as too large. -/
theorem message_too_large_unreachable_witness :
    ([0, 1, 2] : List UInt8).length ≤ READ_BUFFER_LEN ∧
    classifyRead decodeFailAll [0, 1, 2] ≠ ReadOutcome.messageTooLarge 3 :=
  ⟨by decide, message_too_large_unreachable decodeFailAll [0, 1, 2] (by decide) 3⟩

/-- C4: a transfer of `Request(name, size)`, then pairwise-disjoint chunks
covering `[0, size)` delivered in any order, then `End(name)`, leaves on
disk exactly the concatenation of the chunks sorted by offset, and closes
the session. -/
theorem file_transfer_round_trip (env : FTEnv) (st : FTState) (name : String)
    (size : Nat) (cs : List Chunk) (_hN : cs ≠ []) (henv : env.noFail)
    (hdisj : cs.Pairwise chunkDisjoint) (hcov : chunksCover cs size) :
    mapLookup (ftRun env st
        (Message.FileTransferRequest name size ::
          (cs.map fun c => Message.FileTransferChunk name c.data c.offset) ++
          [Message.FileTransferEnd name])).disk name =
      some (chunksBytes (sortByOffset cs)) ∧
    mapLookup (ftRun env st
        (Message.FileTransferRequest name size ::
          (cs.map fun c => Message.FileTransferChunk name c.data c.offset) ++
          [Message.FileTransferEnd name])).active_transfers name = none := by
  obtain ⟨hcreate, hseek, hwrite⟩ := henv
  have hreq : (ftHandle env st (.FileTransferRequest name size)).1 =
      { active_transfers := mapInsert st.active_transfers name 0,
        disk := mapInsert st.disk name [] } := by
    simp [ftHandle, hcreate]
  have hsplit : ftRun env st
      (Message.FileTransferRequest name size ::
        (cs.map fun c => Message.FileTransferChunk name c.data c.offset) ++
        [Message.FileTransferEnd name]) =
      ftRun env
        (ftRun env ((ftHandle env st (.FileTransferRequest name size)).1)
          (cs.map fun c => Message.FileTransferChunk name c.data c.offset))
        [Message.FileTransferEnd name] := by
    simp [ftRun, List.foldl_append]
  have hmid := ftRun_chunks env hseek hwrite name cs
    { active_transfers := mapInsert st.active_transfers name 0,
      disk := mapInsert st.disk name [] } []
    (by rw [mapLookup_insert_self]; rfl)
    (mapLookup_insert_self _ _ _)
  rw [hsplit, hreq]
  have hend : ∀ s : FTState, ftRun env s [Message.FileTransferEnd name] =
      { s with active_transfers := mapRemove s.active_transfers name } :=
    fun s => rfl
  rw [hend]
  constructor
  · exact hmid.1.trans
      (congrArg some (processChunks_eq_sorted cs size hdisj hcov))
  · exact mapLookup_remove_self _ _

/-- C4 witness: a concrete out-of-order two-chunk transfer of four bytes
reassembles in offset order and closes the session. -/
theorem file_transfer_round_trip_witness :
    csW ≠ [] ∧ ftEnvOk.noFail ∧ csW.Pairwise chunkDisjoint ∧
    chunksCover csW 4 ∧
    mapLookup (ftRun ftEnvOk ⟨[], []⟩
        (Message.FileTransferRequest "f" 4 ::
          (csW.map fun c => Message.FileTransferChunk "f" c.data c.offset) ++
          [Message.FileTransferEnd "f"])).disk "f" = some [1, 2, 3, 4] ∧
    mapLookup (ftRun ftEnvOk ⟨[], []⟩
        (Message.FileTransferRequest "f" 4 ::
          (csW.map fun c => Message.FileTransferChunk "f" c.data c.offset) ++
          [Message.FileTransferEnd "f"])).active_transfers "f" = none := by
  have henv : ftEnvOk.noFail :=
    ⟨fun _ => rfl, fun _ _ => rfl, fun _ _ _ => rfl⟩
  have h := file_transfer_round_trip ftEnvOk ⟨[], []⟩ "f" 4 csW
    (by decide) henv (by decide) (by decide)
  refine ⟨by decide, henv, by decide, by decide, ?_, h.2⟩
  rw [h.1]
  decide

/-- C5 counterexample: the claim says that after `FileTransferError` for
`F` no file named `F` exists on disk, but the source only attempts
`fs::remove_file` and, when removal fails, logs and keeps the file: here
the partially written file is still on disk afterwards (while the session
entry is removed regardless). -/
theorem file_remains_on_remove_failure :
    mapLookup ((ftHandle ftEnvRemoveBoom ⟨[("f", 2)], [("f", [7])]⟩
        (.FileTransferError "f" "peer aborted")).1).disk "f" = some [7] ∧
    mapLookup ((ftHandle ftEnvRemoveBoom ⟨[("f", 2)], [("f", [7])]⟩
        (.FileTransferError "f" "peer aborted")).1).disk "f" ≠ none ∧
    mapLookup ((ftHandle ftEnvRemoveBoom ⟨[("f", 2)], [("f", [7])]⟩
        (.FileTransferError "f" "peer aborted")).1).active_transfers "f" =
      none := by
  have hd : mapLookup ((ftHandle ftEnvRemoveBoom ⟨[("f", 2)], [("f", [7])]⟩
      (.FileTransferError "f" "peer aborted")).1).disk "f" = some [7] := rfl
  refine ⟨hd, ?_, rfl⟩
  rw [hd]
  simp

/-- C5 (amended): after the handler processes `FileTransferError` for a
file name, no session entry remains for it, and — provided the
`fs::remove_file` call succeeds — no file of that name remains in the
download directory (on removal failure the source only logs and the file
stays). -/
theorem file_transfer_error_cleanup (env : FTEnv) (st : FTState)
    (name err : String) (h : env.removeFail name = none) :
    mapLookup ((ftHandle env st
        (.FileTransferError name err)).1).active_transfers name = none ∧
    mapLookup ((ftHandle env st
        (.FileTransferError name err)).1).disk name = none := by
  simp [ftHandle, h, mapLookup_remove_self]

/-- C5 witness: a concrete error message against an open session with the
file on disk, with removal succeeding. -/
theorem file_transfer_error_cleanup_witness :
    ftEnvOk.removeFail "f" = none ∧
    mapLookup ((ftHandle ftEnvOk ⟨[("f", 2)], [("f", [7])]⟩
        (.FileTransferError "f" "peer aborted")).1).active_transfers "f" =
      none ∧
    mapLookup ((ftHandle ftEnvOk ⟨[("f", 2)], [("f", [7])]⟩
        (.FileTransferError "f" "peer aborted")).1).disk "f" = none := by
  have h := file_transfer_error_cleanup ftEnvOk ⟨[("f", 2)], [("f", [7])]⟩
    "f" "peer aborted" rfl
  exact ⟨rfl, h.1, h.2⟩

/-- C6 counterexample: the claim says no `FileTransferChunk` ever produces
a reply, but a chunk whose `seek` fails on an open session replies with a
`FileTransferError` carrying the error text. -/
theorem chunk_reply_on_seek_failure :
    (ftHandle ftEnvSeekBoom ⟨[("f", 0)], [("f", [])]⟩
        (.FileTransferChunk "f" [1] 0)).2 =
      some (.FileTransferError "f" "Seek error: boom") ∧
    (ftHandle ftEnvSeekBoom ⟨[("f", 0)], [("f", [])]⟩
        (.FileTransferChunk "f" [1] 0)).2 ≠ none := by
  constructor
  · rfl
  · intro h
    simp [ftHandle, ftEnvSeekBoom, mapLookup] at h

/-- C6 (amended): the file-transfer handler is fire-and-forget except for
two failure replies: a `FileTransferRequest` replies iff file creation
fails, and a `FileTransferChunk` replies iff it has an open session and
its seek or write fails; `FileTransferEnd` and `FileTransferError` never
reply. -/
theorem ft_reply_characterization (env : FTEnv) (st : FTState)
    (n : String) (size : Nat) (ch : List UInt8) (off : Nat) (e : String) :
    ((ftHandle env st (.FileTransferRequest n size)).2 = none ↔
      env.createFail n = none) ∧
    ((ftHandle env st (.FileTransferChunk n ch off)).2 ≠ none ↔
      (mapLookup st.active_transfers n).isSome = true ∧
        (env.seekFail n off ≠ none ∨ env.writeFail n off ch ≠ none)) ∧
    (ftHandle env st (.FileTransferEnd n)).2 = none ∧
    (ftHandle env st (.FileTransferError n e)).2 = none := by
  refine ⟨?_, ?_, rfl, ?_⟩
  · cases hcf : env.createFail n <;> simp [ftHandle, hcf]
  · cases hl : mapLookup st.active_transfers n with
    | none => simp [ftHandle, hl]
    | some cur =>
      cases hsf : env.seekFail n off with
      | some es => simp [ftHandle, hl, hsf]
      | none =>
        cases hwf : env.writeFail n off ch <;> simp [ftHandle, hl, hsf, hwf]
  · cases hr : env.removeFail n <;> simp [ftHandle, hr]

/-- C8: for a fixed handler list, dispatch returns the response of the
first handler that yields `Ok(Some(_))` (skipping handlers that yield
`Ok(None)` or fail), and yields no reply when no handler responds;
as a function of the handler list and the message it is deterministic by
construction. -/
theorem dispatch_first_response (ps qs : List Handler) (p : Handler)
    (msg : Message) (sender : String) (r : Message)
    (h1 : ∀ q ∈ ps, toResponse (q msg sender) = none)
    (h2 : toResponse (p msg sender) = some r) :
    dispatchPlugins (ps ++ p :: qs) msg sender = some r ∧
    dispatchPlugins ps msg sender = none := by
  induction ps with
  | nil =>
    constructor
    · rw [List.nil_append]
      cases hp : p msg sender with
      | ok o =>
        cases o with
        | some x =>
          rw [hp] at h2
          simp only [toResponse] at h2
          simp only [dispatchPlugins, hp]
          exact h2
        | none =>
          rw [hp] at h2
          simp only [toResponse] at h2
          cases h2
      | error e =>
        rw [hp] at h2
        simp only [toResponse] at h2
        cases h2
    · rfl
  | cons q ps ih =>
    have hq := h1 q (List.mem_cons_self q ps)
    obtain ⟨ha, hb⟩ := ih fun q' hq' => h1 q' (List.mem_cons_of_mem q hq')
    have hq' : ∀ rest : List Handler,
        dispatchPlugins (q :: rest) msg sender =
          dispatchPlugins rest msg sender := by
      intro rest
      cases hqq : q msg sender with
      | ok o =>
        cases o with
        | some x => rw [hqq, toResponse] at hq; cases hq
        | none => simp [dispatchPlugins, hqq]
      | error e => simp [dispatchPlugins, hqq]
    rw [List.cons_append, hq' (ps ++ p :: qs), hq' ps]
    exact ⟨ha, hb⟩

/-- C8 witness: a concrete handler list where a `Ping` skips a silent and
a failing handler and is answered by the first responding one. -/
theorem dispatch_first_response_witness :
    (∀ q ∈ ([hNone, hErr] : List Handler), toResponse (q .Ping "s") = none) ∧
    toResponse (hPong .Ping "s") = some .Pong ∧
    dispatchPlugins ([hNone, hErr] ++ hPong :: [hNone]) .Ping "s" =
      some .Pong ∧
    dispatchPlugins [hNone, hErr] .Ping "s" = none := by
  have h1 : ∀ q ∈ ([hNone, hErr] : List Handler),
      toResponse (q .Ping "s") = none := by
    intro q hq
    fin_cases hq <;> rfl
  have h := dispatch_first_response [hNone, hErr] [hNone] hPong .Ping "s"
    .Pong h1 rfl
  exact ⟨h1, rfl, h.1, h.2⟩

/-- C9: a `FileTransferChunk` for a file name with no active session
changes nothing (neither the session map nor the disk) and produces no
reply. -/
theorem chunk_without_session_ignored (env : FTEnv) (st : FTState)
    (n : String) (ch : List UInt8) (off : Nat)
    (h : mapLookup st.active_transfers n = none) :
    ftHandle env st (.FileTransferChunk n ch off) = (st, none) := by
  simp [ftHandle, h]

/-- C9 witness: a chunk against an empty session map is dropped
silently. -/
theorem chunk_without_session_ignored_witness :
    mapLookup (([] : List (String × Nat))) "f" = none ∧
    ftHandle ftEnvOk ⟨[], []⟩ (.FileTransferChunk "f" [1] 0) =
      (⟨[], []⟩, none) :=
  ⟨rfl, chunk_without_session_ignored ftEnvOk ⟨[], []⟩ "f" [1] 0 rfl⟩

/-- C10: `RequestClipboard` always gets exactly one `ClipboardSync` reply;
when the clipboard backend is unavailable or reading fails, the reply
carries the empty string. -/
theorem request_clipboard_always_replies (avail : Bool) (env : ClipEnv) :
    ∃ t, clipHandle avail env .RequestClipboard = some (.ClipboardSync t) ∧
      ((avail = false ∨ ∃ e, env.getText = .error e) → t = "") := by
  cases avail with
  | false => exact ⟨"", rfl, fun _ => rfl⟩
  | true =>
    cases hg : env.getText with
    | ok content =>
      refine ⟨content, by simp [clipHandle, hg], ?_⟩
      rintro (h | ⟨e, he⟩)
      · cases h
      · exact Except.noConfusion he
    | error e => exact ⟨"", by simp [clipHandle, hg], fun _ => rfl⟩

end LibreConnect
